import Mathlib

/-!
Verification of the `bendy` bencode decoder (`src/decoder.rs`).

Shallow embedding of the decoder: bytes are `Nat` (values < 256 in practice),
byte slices are `List Nat`, the cursor is an explicit `Nat` offset, and every
mutating Rust method becomes a state-passing function `Decoder → result × Decoder`.
The nesting-frame stack (Rust `Vec<DecodeState>`, top at the end) is a
`List DecodeState` with the top at the head.
-/

namespace Bendy

/-- Rust enum `Error` from `decoder.rs`.  Rust's formatted messages are modelled as plain
`String`s built with the same concatenation the `format!` calls perform. -/
inductive Error where
  | InvalidState (msg : String)
  | UnsortedKeys
  | UnexpectedEof
  | SyntaxError (msg : String)
deriving Repr, DecidableEq

/-- Rust `{:?}` rendering of a `char` that came from a byte: the character
between apostrophes (0x27).  The source only ever formats printable ASCII in
the inputs exercised here; Rust's escaping of non-printable characters is
modelled as the same plain quoting. -/
def charRepr (c : Nat) : String :=
  "\x27" ++ String.singleton (Char.ofNat c) ++ "\x27"

/-- Rust `Error::unexpected(expected, got, offset)`:
`format!("Expected {}, got {:?} at offset {}", ...)`. -/
def Error.unexpected (expected : String) (got : Nat) (offset : Nat) : Error :=
  .SyntaxError ("Expected " ++ expected ++ ", got " ++ charRepr got
    ++ " at offset " ++ toString offset)

/-- Rust enum `Token<'a>` from `decoder.rs`.  `string` carries the payload byte slice,
`num` carries the byte span of the (unparsed) integer text. -/
inductive Token where
  | list
  | dict
  | string (bytes : List Nat)
  | num (text : List Nat)
  | end_
deriving Repr, DecidableEq

/-- Rust enum `DecodeState<'a>` from `decoder.rs`. -/
inductive DecodeState where
  | Seq
  | MapKey (last : Option (List Nat))
  | MapValue (key : List Nat)
  | Failed (err : Error)
deriving Repr, DecidableEq

/-- Rust struct `Decoder<'a>`: input bytes, cursor offset, frame stack (top = head). -/
structure Decoder where
  source : List Nat
  offset : Nat
  state : List DecodeState
deriving Repr, DecidableEq

/-- Rust `Decoder::new`. -/
def Decoder.new (buffer : List Nat) : Decoder :=
  { source := buffer, offset := 0, state := [] }

/-- Rust `Stack::replace_top` on the frame stack.  Rust panics when the stack is
empty; every call site in `next_token` has just peeked a `Some` top, so the
`[]` branch is unreachable there (we return `[]` to stay total). -/
def replace_top (s : List DecodeState) (new_value : DecodeState) : List DecodeState :=
  match s with
  | [] => []
  | _ :: rest => new_value :: rest

/-- Rust `Decoder::take_byte`: read one byte and advance, or `none` at EOF
(cursor untouched).  The index is guarded by `offset < length`. -/
def take_byte (d : Decoder) : Option Nat × Decoder :=
  if d.offset < d.source.length then
    (some (d.source.getD d.offset 0), { d with offset := d.offset + 1 })
  else
    (none, d)

/-- Rust `Decoder::take_chunk(count)`: the code checks `offset.checked_add(count)` and
then `end_pos < self.source.len()` — a strict bound, so a chunk that ends
exactly at the end of the buffer is rejected.  (`checked_add` overflow cannot
occur over `Nat`.) -/
def take_chunk (d : Decoder) (count : Nat) : Option (List Nat) × Decoder :=
  let end_pos := d.offset + count
  if end_pos < d.source.length then
    (some ((d.source.drop d.offset).take count), { d with offset := end_pos })
  else
    (none, d)

/-- The local `enum State` of `Decoder::take_int`. -/
inductive IntLexState where
  | start
  | sign
  | zero
  | digits
deriving Repr, DecidableEq

/-- The `while endpos < self.source.len()` loop of `Decoder::take_int`,
iterating over the bytes from position `endpos` on (`l` is
`source.drop endpos` at every call).  On success it returns the final value of
`endpos`, which the Rust loop has already advanced one past the terminator
before `break`.  Error offsets are `endpos - 1` after the Rust increment,
i.e. the index of the offending byte. -/
def take_int_loop (expected_end : Nat) : List Nat → IntLexState → Nat → Except Error Nat
  | [], _, _ => .error Error.UnexpectedEof
  | c :: rest, .start, endpos =>
    if c = 45 then take_int_loop expected_end rest .sign (endpos + 1)
    else if c = 48 then take_int_loop expected_end rest .zero (endpos + 1)
    else if 49 ≤ c ∧ c ≤ 57 then take_int_loop expected_end rest .digits (endpos + 1)
    else .error (Error.unexpected "\x27-\x27 or \x270\x27..\x279\x27" c endpos)
  | c :: _, .zero, endpos =>
    if c = expected_end then .ok (endpos + 1)
    else .error (Error.unexpected (charRepr expected_end) c endpos)
  | c :: rest, .sign, endpos =>
    if 49 ≤ c ∧ c ≤ 57 then take_int_loop expected_end rest .digits (endpos + 1)
    else .error (Error.unexpected "\x271\x27..\x279\x27" c endpos)
  | c :: rest, .digits, endpos =>
    if 48 ≤ c ∧ c ≤ 57 then take_int_loop expected_end rest .digits (endpos + 1)
    else if c = expected_end then .ok (endpos + 1)
    else .error (Error.unexpected (charRepr expected_end ++ " or \x270\x27..\x279\x27") c endpos)

/-- Rust `Decoder::take_int(expected_end)`.  On success Rust slices
`source[offset..endpos]` — NOTE: `endpos` is one past the terminator, so the
returned text INCLUDES the terminator byte — and sets `offset = endpos`.
On error the cursor is untouched. -/
def take_int (d : Decoder) (expected_end : Nat) : Except Error (List Nat) × Decoder :=
  match take_int_loop expected_end (d.source.drop d.offset) .start d.offset with
  | .ok endpos =>
    (.ok ((d.source.drop d.offset).take (endpos - d.offset)), { d with offset := endpos })
  | .error e => (.error e, d)

/-- Byte test `c >= '0' && c <= '9'`. -/
def isDigitByte (c : Nat) : Bool := 48 ≤ c && c ≤ 57

/-- Rust `usize::from_str_radix(ival, 10)` as used in `raw_next_token`: succeeds
exactly on a non-empty all-digit string.  (Rust also accepts a leading `+` and
fails on overflow; neither case can reach this call: `take_int` never emits a
`+`, and the slice it emits always ends with the terminator byte, which is not
a digit, so here the parse always fails anyway.) -/
def parseUsize (bytes : List Nat) : Option Nat :=
  if bytes ≠ [] ∧ bytes.all isDigitByte then
    some (bytes.foldl (fun acc c => acc * 10 + (c - 48)) 0)
  else
    none

/-- Rust `Decoder::raw_next_token`.  Dispatch on the leading byte:
`e`=101, `l`=108, `d`=100, `i`=105, digits 48–57.  On error the returned
decoder carries whatever cursor advance had already happened (Rust mutates in
place). -/
def raw_next_token (d : Decoder) : Except Error Token × Decoder :=
  match take_byte d with
  | (none, d1) => (.error Error.UnexpectedEof, d1)
  | (some c, d1) =>
    if c = 101 then (.ok .end_, d1)
    else if c = 108 then (.ok .list, d1)
    else if c = 100 then (.ok .dict, d1)
    else if c = 105 then
      match take_int d1 101 with
      | (.error e, d2) => (.error e, d2)
      | (.ok text, d2) => (.ok (.num text), d2)
    else if isDigitByte c then
      -- `self.offset -= 1`: put the digit back (offset is ≥ 1 here, the
      -- successful take_byte just advanced it)
      let d2 : Decoder := { d1 with offset := d1.offset - 1 }
      let curpos := d2.offset
      match take_int d2 58 with
      | (.error e, d3) => (.error e, d3)
      | (.ok ival, d3) =>
        match parseUsize ival with
        | none =>
          (.error (.SyntaxError ("Invalid integer at offset " ++ toString curpos)), d3)
        | some len =>
          match take_chunk d3 len with
          | (none, d4) => (.error Error.UnexpectedEof, d4)
          | (some chunk, d4) => (.ok (.string chunk), d4)
    else
      (.error (.SyntaxError ("Invalid token starting with " ++ charRepr c
        ++ " at offset " ++ toString (d1.offset - 1))), d1)

/-- Rust `Decoder::latch_err`: push a `Failed` sentinel frame on error, pass
through unchanged on success. -/
def latch_err {T : Type} (d : Decoder) (result : Except Error T) :
    Except Error T × Decoder :=
  match result with
  | .error e => (.error e, { d with state := DecodeState.Failed e :: d.state })
  | .ok a => (.ok a, d)

/-- Rust `Decoder::check_error`: peek the frame stack for a latched failure. -/
def check_error (d : Decoder) : Except Error Unit :=
  match d.state.head? with
  | some (.Failed e) => .error e
  | _ => .ok ()

/-- Byte-slice `<` (Rust `Ord` on `&[u8]`): lexicographic, prefix is smaller. -/
def bytesLt : List Nat → List Nat → Bool
  | [], [] => false
  | [], _ :: _ => true
  | _ :: _, [] => false
  | a :: as, b :: bs => if a < b then true else if b < a then false else bytesLt as bs

/-- Comparison `oldlabel >= label` on byte slices. -/
def bytesGe (a b : List Nat) : Bool := !(bytesLt a b)

/-- The `match (self.state.peek(), tok)` of `Decoder::next_token`, with the
arms in source order (first match wins, exactly as in Rust).  `start_offset`
is the cursor before the token was lexed; validation failures roll the cursor
back to it before latching. -/
def validate_token (start_offset : Nat) (tok : Token) (d : Decoder) :
    Except Error (Option Token) × Decoder :=
  match d.state.head?, tok with
  | none, .end_ =>
    latch_err { d with offset := start_offset }
      (.error (Error.InvalidState "End not allowed at top level"))
  | some .Seq, .end_ => (.ok (some tok), { d with state := d.state.tail })
  | some (.MapKey _), .end_ => (.ok (some tok), { d with state := d.state.tail })
  | some (.MapKey none), .string label =>
    (.ok (some tok), { d with state := replace_top d.state (.MapValue label) })
  | some (.MapKey (some oldlabel)), .string label =>
    if bytesGe oldlabel label then
      latch_err { d with offset := start_offset } (.error Error.UnsortedKeys)
    else
      (.ok (some tok), { d with state := replace_top d.state (.MapValue label) })
  | some (.MapKey _), _ =>
    latch_err { d with offset := start_offset }
      (.error (Error.InvalidState "Map keys must be strings"))
  | some (.MapValue label), _ =>
    (.ok (some tok), { d with state := replace_top d.state (.MapKey (some label)) })
  | _, .list => (.ok (some tok), { d with state := DecodeState.Seq :: d.state })
  | _, .dict => (.ok (some tok), { d with state := DecodeState.MapKey none :: d.state })
  | _, _ => (.ok (some tok), d)

/-- Rust `Decoder::next_token`. -/
def next_token (d : Decoder) : Except Error (Option Token) × Decoder :=
  match check_error d with
  | .error e => (.error e, d)
  | .ok _ =>
    let start_offset := d.offset
    if d.offset = d.source.length then
      if d.state.isEmpty then (.ok none, d)
      else latch_err d (.error Error.UnexpectedEof)
    else
      match raw_next_token d with
      | (.error e, d1) => latch_err d1 (.error e)
      | (.ok tok, d1) => validate_token start_offset tok d1

/-- Drive `next_token` a fixed number of times, collecting the results. -/
def next_tokens : Nat → Decoder → List (Except Error (Option Token)) × Decoder
  | 0, d => ([], d)
  | n + 1, d =>
    let (r, d1) := next_token d
    let (rs, d2) := next_tokens n d1
    (r :: rs, d2)

/-- The shape of an `Object<'obj, 'ser>`: the `List`/`Dict` variants hold a
borrowing sub-decoder in Rust, which in this state-passing embedding is just
the updated `Decoder` carried alongside. -/
inductive ObjectShape where
  | listDec
  | dictDec
  | integer (text : List Nat)
  | bytes (b : List Nat)
deriving Repr, DecidableEq

/-- Rust `Object::into_token`. -/
def into_token : ObjectShape → Token
  | .listDec => .list
  | .dictDec => .dict
  | .bytes b => .string b
  | .integer n => .num n

/-- The object-layer `Decoder::next`: one validated token, with `End` and
end-of-input both mapped to "no value". -/
def Decoder.next (d : Decoder) : Except Error (Option ObjectShape) × Decoder :=
  match next_token d with
  | (.error e, d1) => (.error e, d1)
  | (.ok none, d1) => (.ok none, d1)
  | (.ok (some .end_), d1) => (.ok none, d1)
  | (.ok (some .list), d1) => (.ok (some .listDec), d1)
  | (.ok (some .dict), d1) => (.ok (some .dictDec), d1)
  | (.ok (some (.string s)), d1) => (.ok (some (.bytes s)), d1)
  | (.ok (some (.num s)), d1) => (.ok (some (.integer s)), d1)

/-- Outcome of one `DictDecoder::next` call.  `panicked` is the
`.unwrap()` on line 355 firing on `None`. -/
inductive DictNextOutcome where
  | done
  | pair (key : List Nat) (value : ObjectShape)
  | err (e : Error)
  | panicked
deriving Repr, DecidableEq

/-- Rust `DictDecoder::next`, over the borrowed decoder plus the `finished` flag
(returned updated alongside the outcome). -/
def dict_next (d : Decoder) (finished : Bool) : DictNextOutcome × Decoder × Bool :=
  if finished then (.done, d, true)
  else
    match Decoder.next d with
    | (.error e, d1) => (.err e, d1, false)
    | (.ok keyObj, d1) =>
      match keyObj.map into_token with
      | some (.string k) =>
        match Decoder.next d1 with
        | (.error e, d2) => (.err e, d2, false)
        | (.ok (some v), d2) => (.pair k v, d2, false)
        | (.ok none, d2) => (.panicked, d2, false)
      | _ => (.done, d1, true)

/-- Bytes of a Lean string literal (ASCII in all inputs used here): the test
inputs of the spec written as byte lists. -/
def strBytes (s : String) : List Nat := s.toList.map Char.toNat

/-! ## Lemmas about the integer lexer -/

/-- When the `take_int` loop succeeds, it consumed `n ≥ 1` bytes of the
remaining input and the consumed span contains the terminator byte. -/
theorem take_int_loop_ok_spec (expected_end : Nat) (l : List Nat) :
    ∀ (st : IntLexState) (p e : Nat),
      take_int_loop expected_end l st p = Except.ok e →
      ∃ n, e = p + n ∧ 1 ≤ n ∧ n ≤ l.length ∧ expected_end ∈ l.take n := by
  induction l with
  | nil =>
    intro st p e h
    cases st <;> simp [take_int_loop] at h
  | cons c rest ih =>
    intro st p e h
    have step : ∀ st' e', take_int_loop expected_end rest st' (p + 1) = Except.ok e' →
        ∃ n, e' = p + n ∧ 1 ≤ n ∧ n ≤ (c :: rest).length ∧ expected_end ∈ (c :: rest).take n := by
      intro st' e' h'
      obtain ⟨n, hn, h1n, hlen, hmem⟩ := ih st' (p + 1) e' h'
      refine ⟨n + 1, by omega, by omega, by simp; omega, ?_⟩
      simpa [List.take_succ_cons] using Or.inr hmem
    have term : c = expected_end → (Except.ok (p + 1) : Except Error Nat) = Except.ok e →
        ∃ n, e = p + n ∧ 1 ≤ n ∧ n ≤ (c :: rest).length ∧ expected_end ∈ (c :: rest).take n := by
      intro hc he
      refine ⟨1, by injection he; omega, le_refl 1, by simp, ?_⟩
      simp [List.take_succ_cons, hc]
    cases st with
    | start =>
      simp only [take_int_loop] at h
      split_ifs at h with h1 h2 h3
      · exact step _ _ h
      · exact step _ _ h
      · exact step _ _ h
    | sign =>
      simp only [take_int_loop] at h
      split_ifs at h with h1
      · exact step _ _ h
    | zero =>
      simp only [take_int_loop] at h
      split_ifs at h with h1
      · exact term h1 h
    | digits =>
      simp only [take_int_loop] at h
      split_ifs at h with h1 h2
      · exact step _ _ h
      · exact term h2 h

/-- Every error raised by the `take_int` loop is `UnexpectedEof` or a
`SyntaxError`; the loop never raises `InvalidState` or `UnsortedKeys`. -/
theorem take_int_loop_error_kinds (expected_end : Nat) (l : List Nat) :
    ∀ (st : IntLexState) (p : Nat) (e : Error),
      take_int_loop expected_end l st p = Except.error e →
      e = Error.UnexpectedEof ∨ ∃ s, e = Error.SyntaxError s := by
  induction l with
  | nil =>
    intro st p e h
    cases st <;> simp only [take_int_loop, Except.error.injEq] at h <;> exact Or.inl h.symm
  | cons c rest ih =>
    intro st p e h
    cases st with
    | start =>
      simp only [take_int_loop] at h
      split_ifs at h with h1 h2 h3
      · exact ih _ _ _ h
      · exact ih _ _ _ h
      · exact ih _ _ _ h
      · injection h with h
        exact Or.inr ⟨_, h.symm⟩
    | sign =>
      simp only [take_int_loop] at h
      split_ifs at h with h1
      · exact ih _ _ _ h
      · injection h with h
        exact Or.inr ⟨_, h.symm⟩
    | zero =>
      simp only [take_int_loop] at h
      split_ifs at h with h1
      · injection h with h
        exact Or.inr ⟨_, h.symm⟩
    | digits =>
      simp only [take_int_loop] at h
      split_ifs at h with h1 h2
      · exact ih _ _ _ h
      · injection h with h
        exact Or.inr ⟨_, h.symm⟩

/-- The function `take_byte` at EOF leaves the decoder untouched. -/
theorem take_byte_none_spec (d d1 : Decoder) (h : take_byte d = (none, d1)) : d1 = d := by
  unfold take_byte at h
  split_ifs at h with h1
  · simp at h
  · exact (congrArg Prod.snd h).symm

/-- A successful `take_byte` read one in-bounds byte and advanced by one. -/
theorem take_byte_some_spec (d : Decoder) (c : Nat) (d1 : Decoder)
    (h : take_byte d = (some c, d1)) :
    d1.offset = d.offset + 1 ∧ d.offset < d.source.length ∧
      d1.source = d.source ∧ d1.state = d.state := by
  unfold take_byte at h
  split_ifs at h with h1
  · obtain ⟨-, hd⟩ := Prod.mk.injEq .. ▸ h
    subst hd
    exact ⟨rfl, h1, rfl, rfl⟩
  · simp at h

/-- A `take_chunk` failure leaves the decoder untouched. -/
theorem take_chunk_none_spec (d : Decoder) (count : Nat) (d1 : Decoder)
    (h : take_chunk d count = (none, d1)) : d1 = d := by
  unfold take_chunk at h
  simp only [] at h
  split_ifs at h with h1
  · simp at h
  · exact (congrArg Prod.snd h).symm

/-- A successful `take_chunk` advanced by `count`, strictly inside the buffer. -/
theorem take_chunk_some_spec (d : Decoder) (count : Nat) (chunk : List Nat) (d1 : Decoder)
    (h : take_chunk d count = (some chunk, d1)) :
    d1.offset = d.offset + count ∧ d.offset + count < d.source.length ∧
      d1.source = d.source ∧ d1.state = d.state := by
  unfold take_chunk at h
  simp only [] at h
  split_ifs at h with h1
  · obtain ⟨-, hd⟩ := Prod.mk.injEq .. ▸ h
    subst hd
    exact ⟨rfl, h1, rfl, rfl⟩
  · simp at h

/-- On success of `take_int`, the terminator byte is part of the returned text
(the Rust slice `source[offset..endpos]` runs one past the terminator), the
cursor advanced strictly but stays within the buffer, source and frame stack
untouched. -/
theorem take_int_ok_spec (d : Decoder) (exp : Nat) (ival : List Nat) (d' : Decoder)
    (h : take_int d exp = (.ok ival, d')) :
    exp ∈ ival ∧ d.offset < d'.offset ∧ d'.offset ≤ d.source.length ∧
      d'.source = d.source ∧ d'.state = d.state := by
  unfold take_int at h
  rcases hl : take_int_loop exp (d.source.drop d.offset) .start d.offset with e | endpos
  · rw [hl] at h
    simp at h
  · rw [hl] at h
    simp only [Prod.mk.injEq, Except.ok.injEq] at h
    obtain ⟨hival, hd⟩ := h
    obtain ⟨n, hn, h1, hlen, hmem⟩ := take_int_loop_ok_spec exp _ _ _ _ hl
    subst hd hn
    rw [List.length_drop] at hlen
    refine ⟨?_, by simp; omega, by simp; omega, rfl, rfl⟩
    rw [← hival]
    simpa [Nat.add_sub_cancel_left] using hmem

/-- On error of `take_int`, the decoder is untouched and the error is
`UnexpectedEof` or a `SyntaxError`. -/
theorem take_int_error_spec (d : Decoder) (exp : Nat) (e : Error) (d' : Decoder)
    (h : take_int d exp = (.error e, d')) :
    d' = d ∧ (e = Error.UnexpectedEof ∨ ∃ s, e = Error.SyntaxError s) := by
  unfold take_int at h
  rcases hl : take_int_loop exp (d.source.drop d.offset) .start d.offset with e0 | endpos
  · rw [hl] at h
    simp only [Prod.mk.injEq, Except.error.injEq] at h
    obtain ⟨he, hd⟩ := h
    subst he
    exact ⟨hd.symm, take_int_loop_error_kinds _ _ _ _ _ hl⟩
  · rw [hl] at h
    simp at h

/-- The length parse `parseUsize` rejects any byte list containing a non-digit byte. -/
theorem parseUsize_eq_none_of_mem (bytes : List Nat) (c : Nat) (hc : c ∈ bytes)
    (hnd : isDigitByte c = false) : parseUsize bytes = none := by
  unfold parseUsize
  rw [if_neg]
  rintro ⟨-, hall⟩
  have := List.all_eq_true.mp hall c hc
  rw [hnd] at this
  exact Bool.noConfusion this

/-- The length text handed to the length parse always contains the `':'`
terminator (a non-digit), so `raw_next_token` can never produce a `String`
token: the digit branch always fails at the length parse. -/
theorem raw_next_token_no_string (d : Decoder) (t : Token) (d' : Decoder)
    (h : raw_next_token d = (.ok t, d')) : ∀ s, t ≠ .string s := by
  intro s hts
  subst hts
  unfold raw_next_token at h
  split at h
  · simp at h
  · split_ifs at h with h1 h2 h3 h4 h5
    · simp at h
    · simp at h
    · simp at h
    · split at h
      · simp at h
      · simp at h
    · simp only [] at h
      split at h
      · simp at h
      · rename_i ival d3 hti
        split at h
        · simp at h
        · rename_i len hpu
          obtain ⟨hmem, -, -, -, -⟩ := take_int_ok_spec _ _ _ _ hti
          rw [parseUsize_eq_none_of_mem _ 58 hmem (by decide)] at hpu
          exact Option.noConfusion hpu
    · simp at h

/-- Cursor, source and state accounting for `raw_next_token`, for both outcomes: the
cursor never moves backwards past its starting point, and never past the end
of the buffer (unless it already was). -/
theorem raw_next_token_spec (d : Decoder) (r : Except Error Token) (d' : Decoder)
    (h : raw_next_token d = (r, d')) :
    d.offset ≤ d'.offset ∧ d'.offset ≤ max d.offset d.source.length ∧
      d'.source = d.source ∧ d'.state = d.state := by
  unfold raw_next_token at h
  split at h
  · rename_i d1 htb
    have hb := take_byte_none_spec _ _ htb
    obtain ⟨-, hd⟩ := Prod.mk.injEq .. ▸ h
    subst hd hb
    exact ⟨le_refl _, le_max_left _ _, rfl, rfl⟩
  · rename_i c d1 htb
    obtain ⟨ho1, hlt1, hs1, hst1⟩ := take_byte_some_spec _ _ _ htb
    split_ifs at h with h1 h2 h3 h4 h5
    · obtain ⟨-, hd⟩ := Prod.mk.injEq .. ▸ h
      subst hd
      exact ⟨by omega, by omega, hs1, hst1⟩
    · obtain ⟨-, hd⟩ := Prod.mk.injEq .. ▸ h
      subst hd
      exact ⟨by omega, by omega, hs1, hst1⟩
    · obtain ⟨-, hd⟩ := Prod.mk.injEq .. ▸ h
      subst hd
      exact ⟨by omega, by omega, hs1, hst1⟩
    · split at h
      · rename_i e d2 hti
        obtain ⟨hd2, -⟩ := take_int_error_spec _ _ _ _ hti
        obtain ⟨-, hd⟩ := Prod.mk.injEq .. ▸ h
        subst hd hd2
        exact ⟨by omega, by omega, hs1, hst1⟩
      · rename_i text d2 hti
        obtain ⟨-, hlt2, hle2, hs2, hst2⟩ := take_int_ok_spec _ _ _ _ hti
        obtain ⟨-, hd⟩ := Prod.mk.injEq .. ▸ h
        subst hd
        rw [hs1] at hle2
        exact ⟨by omega, by omega, hs2.trans hs1, hst2.trans hst1⟩
    · simp only [] at h
      split at h
      · rename_i e d3 hti
        obtain ⟨hd3, -⟩ := take_int_error_spec _ _ _ _ hti
        obtain ⟨-, hd⟩ := Prod.mk.injEq .. ▸ h
        subst hd hd3
        exact ⟨by simp; omega, by simp; omega, hs1, hst1⟩
      · rename_i ival d3 hti
        obtain ⟨-, hlt3, hle3, hs3, hst3⟩ := take_int_ok_spec _ _ _ _ hti
        simp only at hlt3 hle3 hs3 hst3
        rw [hs1] at hle3
        split at h
        · obtain ⟨-, hd⟩ := Prod.mk.injEq .. ▸ h
          subst hd
          exact ⟨by omega, by omega, hs3.trans hs1, hst3.trans hst1⟩
        · rename_i len hpu
          split at h
          · rename_i d4 htc
            have hd4 := take_chunk_none_spec _ _ _ htc
            obtain ⟨-, hd⟩ := Prod.mk.injEq .. ▸ h
            subst hd hd4
            exact ⟨by omega, by omega, hs3.trans hs1, hst3.trans hst1⟩
          · rename_i chunk d4 htc
            obtain ⟨ho4, hlt4, hs4, hst4⟩ := take_chunk_some_spec _ _ _ _ htc
            obtain ⟨-, hd⟩ := Prod.mk.injEq .. ▸ h
            subst hd
            rw [hs3, hs1] at hlt4
            exact ⟨by omega, by omega, (hs4.trans hs3).trans hs1,
              (hst4.trans hst3).trans hst1⟩
    · obtain ⟨-, hd⟩ := Prod.mk.injEq .. ▸ h
      subst hd
      exact ⟨by omega, by omega, hs1, hst1⟩

/-- Every `raw_next_token` error is `UnexpectedEof` or a `SyntaxError`. -/
theorem raw_next_token_error_kinds (d : Decoder) (e : Error) (d' : Decoder)
    (h : raw_next_token d = (.error e, d')) :
    e = Error.UnexpectedEof ∨ ∃ s, e = Error.SyntaxError s := by
  unfold raw_next_token at h
  split at h
  · obtain ⟨he, -⟩ := Prod.mk.injEq .. ▸ h
    exact Or.inl (Except.error.injEq .. ▸ he).symm
  · split_ifs at h with h1 h2 h3 h4 h5
    · simp at h
    · simp at h
    · simp at h
    · split at h
      · rename_i e0 d2 hti
        obtain ⟨he, -⟩ := Prod.mk.injEq .. ▸ h
        obtain ⟨-, hk⟩ := take_int_error_spec _ _ _ _ hti
        injection he with he
        exact he ▸ hk
      · simp at h
    · simp only [] at h
      split at h
      · rename_i e0 d3 hti
        obtain ⟨he, -⟩ := Prod.mk.injEq .. ▸ h
        obtain ⟨-, hk⟩ := take_int_error_spec _ _ _ _ hti
        injection he with he
        exact he ▸ hk
      · split at h
        · obtain ⟨he, -⟩ := Prod.mk.injEq .. ▸ h
          exact Or.inr ⟨_, (Except.error.injEq .. ▸ he).symm⟩
        · split at h
          · obtain ⟨he, -⟩ := Prod.mk.injEq .. ▸ h
            exact Or.inl (Except.error.injEq .. ▸ he).symm
          · simp at h
    · obtain ⟨he, -⟩ := Prod.mk.injEq .. ▸ h
      exact Or.inr ⟨_, (Except.error.injEq .. ▸ he).symm⟩

/-- A successful `validate_token` hands back exactly the lexed token and does
not move the cursor or change the input. -/
theorem validate_token_ok_spec (so : Nat) (tok : Token) (d : Decoder) (ot : Option Token)
    (d' : Decoder) (h : validate_token so tok d = (.ok ot, d')) :
    ot = some tok ∧ d'.offset = d.offset ∧ d'.source = d.source := by
  have ext : ∀ (s' : List DecodeState),
      ((Except.ok (some tok) : Except Error (Option Token)), { d with state := s' }) = (.ok ot, d') →
      ot = some tok ∧ d'.offset = d.offset ∧ d'.source = d.source := by
    intro s' hh
    obtain ⟨h1, h2⟩ := Prod.mk.injEq .. ▸ hh
    injection h1 with h1
    subst h2
    exact ⟨h1.symm, rfl, rfl⟩
  unfold validate_token at h
  split at h
  · simp [latch_err] at h
  · exact ext _ h
  · exact ext _ h
  · exact ext _ h
  · split_ifs at h with hge
    · simp [latch_err] at h
    · exact ext _ h
  · simp [latch_err] at h
  · exact ext _ h
  · exact ext _ h
  · exact ext _ h
  · exact ext _ h

/-- A failed `validate_token` rolled the cursor back to the start offset and
latched the error as the new top frame. -/
theorem validate_token_error_spec (so : Nat) (tok : Token) (d : Decoder) (e : Error)
    (d' : Decoder) (h : validate_token so tok d = (.error e, d')) :
    d'.offset = so ∧ d'.source = d.source ∧
      d'.state.head? = some (.Failed e) := by
  have ext : ∀ (e0 : Error),
      latch_err { d with offset := so } (.error e0 : Except Error (Option Token)) = (.error e, d') →
      d'.offset = so ∧ d'.source = d.source ∧ d'.state.head? = some (.Failed e) := by
    intro e0 hh
    simp only [latch_err] at hh
    obtain ⟨h1, h2⟩ := Prod.mk.injEq .. ▸ hh
    injection h1 with h1
    subst h2 h1
    exact ⟨rfl, rfl, rfl⟩
  unfold validate_token at h
  split at h
  · exact ext _ h
  · simp at h
  · simp at h
  · simp at h
  · split_ifs at h with hge
    · exact ext _ h
    · simp at h
  · exact ext _ h
  · simp at h
  · simp at h
  · simp at h
  · simp at h

/-- When `next_token` returns an error, the error has been latched: the top
frame of the returned decoder is `Failed` with that very error; the input
buffer is unchanged. -/
theorem next_token_error_spec (d : Decoder) (e : Error) (d' : Decoder)
    (h : next_token d = (.error e, d')) :
    d'.state.head? = some (.Failed e) ∧ d'.source = d.source := by
  unfold next_token at h
  split at h
  · rename_i e0 hce
    obtain ⟨h1, h2⟩ := Prod.mk.injEq .. ▸ h
    injection h1 with h1
    subst h2 h1
    unfold check_error at hce
    split at hce
    · rename_i e1 hh
      injection hce with hce
      subst hce
      exact ⟨hh, rfl⟩
    · simp at hce
  · simp only [] at h
    split_ifs at h with h1 h2
    · simp at h
    · simp only [latch_err] at h
      obtain ⟨h3, h4⟩ := Prod.mk.injEq .. ▸ h
      injection h3 with h3
      subst h4 h3
      exact ⟨rfl, rfl⟩
    · split at h
      · rename_i e1 d1 hraw
        obtain ⟨-, -, hs, -⟩ := raw_next_token_spec _ _ _ hraw
        simp only [latch_err] at h
        obtain ⟨h3, h4⟩ := Prod.mk.injEq .. ▸ h
        injection h3 with h3
        subst h4 h3
        exact ⟨rfl, hs⟩
      · rename_i tok d1 hraw
        obtain ⟨-, -, hs, -⟩ := raw_next_token_spec _ _ _ hraw
        obtain ⟨-, hs', hh⟩ := validate_token_error_spec _ _ _ _ _ h
        exact ⟨hh, hs'.trans hs⟩

/-- Cursor accounting for `next_token`: the cursor never moves backwards, and
never moves past the end of the buffer (unless it already was). -/
theorem next_token_offset_spec (d : Decoder) (r : Except Error (Option Token)) (d' : Decoder)
    (h : next_token d = (r, d')) :
    d.offset ≤ d'.offset ∧ d'.offset ≤ max d.offset d.source.length := by
  unfold next_token at h
  split at h
  · obtain ⟨-, h2⟩ := Prod.mk.injEq .. ▸ h
    subst h2
    exact ⟨le_refl _, le_max_left _ _⟩
  · simp only [] at h
    split_ifs at h with h1 h2
    · obtain ⟨-, h3⟩ := Prod.mk.injEq .. ▸ h
      subst h3
      exact ⟨le_refl _, le_max_left _ _⟩
    · simp only [latch_err] at h
      obtain ⟨-, h3⟩ := Prod.mk.injEq .. ▸ h
      subst h3
      exact ⟨le_refl _, le_max_left _ _⟩
    · split at h
      · rename_i e1 d1 hraw
        obtain ⟨ho, hb, -, -⟩ := raw_next_token_spec _ _ _ hraw
        simp only [latch_err] at h
        obtain ⟨-, h3⟩ := Prod.mk.injEq .. ▸ h
        subst h3
        exact ⟨ho, hb⟩
      · rename_i tok d1 hraw
        obtain ⟨ho, hb, -, -⟩ := raw_next_token_spec _ _ _ hraw
        rcases r with e1 | ot
        · obtain ⟨hoff, -, -⟩ := validate_token_error_spec _ _ _ _ _ h
          rw [hoff]
          exact ⟨le_refl _, le_max_left _ _⟩
        · obtain ⟨-, hoff, -⟩ := validate_token_ok_spec _ _ _ _ _ h
          rw [hoff]
          exact ⟨ho, hb⟩

/-- A `next_token` failure with a validation error (`UnsortedKeys` or
`InvalidState`) leaves the cursor exactly where the call started. -/
theorem next_token_validation_error_offset (d : Decoder) (e : Error) (d' : Decoder)
    (h : next_token d = (.error e, d'))
    (hk : e = Error.UnsortedKeys ∨ ∃ s, e = Error.InvalidState s) :
    d'.offset = d.offset := by
  unfold next_token at h
  split at h
  · obtain ⟨-, h2⟩ := Prod.mk.injEq .. ▸ h
    subst h2
    rfl
  · simp only [] at h
    split_ifs at h with h1 h2
    · simp at h
    · simp only [latch_err] at h
      obtain ⟨h3, h4⟩ := Prod.mk.injEq .. ▸ h
      injection h3 with h3
      subst h4 h3
      rcases hk with hk | ⟨s, hk⟩ <;> exact Error.noConfusion hk
    · split at h
      · rename_i e1 d1 hraw
        simp only [latch_err] at h
        obtain ⟨h3, h4⟩ := Prod.mk.injEq .. ▸ h
        injection h3 with h3
        subst h4 h3
        rcases raw_next_token_error_kinds _ _ _ hraw with hr | ⟨s, hr⟩ <;>
          subst hr <;>
          rcases hk with hk | ⟨s', hk⟩ <;> exact Error.noConfusion hk
      · rename_i tok d1 hraw
        obtain ⟨hoff, -, -⟩ := validate_token_error_spec _ _ _ _ _ h
        exact hoff

/-- A successful `next_token` that yields a token yields exactly the raw-lexed
token, and that token is never `String` (see `raw_next_token_no_string`). -/
theorem next_token_no_string (d : Decoder) (ot : Option Token) (d' : Decoder)
    (h : next_token d = (.ok ot, d')) : ∀ s, ot ≠ some (.string s) := by
  intro s hos
  subst hos
  unfold next_token at h
  split at h
  · simp at h
  · simp only [] at h
    split_ifs at h with h1 h2
    · simp at h
    · simp [latch_err] at h
    · split at h
      · simp [latch_err] at h
      · rename_i tok d1 hraw
        obtain ⟨hot, -, -⟩ := validate_token_ok_spec _ _ _ _ _ h
        injection hot with hot
        exact raw_next_token_no_string _ _ _ hraw s hot.symm

/-- The object layer never yields a `Bytes` value, because the tokenizer
never yields a `String` token. -/
theorem decoder_next_no_bytes (d : Decoder) (oo : Option ObjectShape) (d' : Decoder)
    (h : Decoder.next d = (.ok oo, d')) : ∀ s, oo ≠ some (.bytes s) := by
  intro s hos
  subst hos
  unfold Decoder.next at h
  split at h
  · simp at h
  · simp at h
  · simp at h
  · simp at h
  · simp at h
  · rename_i s0 d1 hnt
    exact next_token_no_string _ _ _ hnt s0 rfl
  · simp at h

/-- One `DictDecoder::next` step never reaches the `unwrap`-on-`None`
outcome. -/
theorem dict_next_eq_no_panic (d : Decoder) (f : Bool) (o : DictNextOutcome)
    (d2 : Decoder) (f2 : Bool) (h : dict_next d f = (o, d2, f2)) :
    o ≠ .panicked := by
  intro ho
  subst ho
  unfold dict_next at h
  split_ifs at h with hf
  · simp at h
  · split at h
    · simp at h
    · rename_i keyObj d1 hdn
      split at h
      · rename_i k hk
        obtain ⟨os, hko, hos⟩ := Option.map_eq_some'.mp hk
        cases os with
        | listDec => simp [into_token] at hos
        | dictDec => simp [into_token] at hos
        | integer n => simp [into_token] at hos
        | bytes b => exact decoder_next_no_bytes _ _ _ hdn b hko
      · simp at h

/-! ## The claims -/

/-- C1 (claim fails on the code): on `"d3:bari1e3:fooli2ei3ee"` the second
`next_token` call does not yield `String("bar")` — the length text returned
by `take_int` includes the `':'` terminator, so the length parse fails with
`SyntaxError "Invalid integer at offset 1"` — and the object layer
(`DictDecoder::next` driven after the `Dict` open) surfaces that same error
instead of the `("bar", Integer "1")` entry. -/
theorem simple_message_fails_at_first_key :
    (next_tokens 2 (Decoder.new (strBytes "d3:bari1e3:fooli2ei3ee"))).1 =
      [.ok (some .dict), .error (.SyntaxError "Invalid integer at offset 1")] ∧
    (dict_next (next_token (Decoder.new (strBytes "d3:bari1e3:fooli2ei3ee"))).2 false).1 =
      .err (.SyntaxError "Invalid integer at offset 1") := by
  exact ⟨rfl, rfl⟩

/-- C2 (claim fails on the code): the integer text does NOT exclude the
terminator: `"i0e"` yields `Num "0e"` and `"i-5e"` yields `Num "-5e"`
(the Rust slice `source[offset..endpos]` runs one past the terminator).
The `"i01e"` part of the claim does hold: SyntaxError naming offset 2, the
first offending character. -/
theorem integer_text_includes_terminator :
    (next_token (Decoder.new (strBytes "i0e"))).1 = .ok (some (.num (strBytes "0e"))) ∧
    (next_token (Decoder.new (strBytes "i-5e"))).1 = .ok (some (.num (strBytes "-5e"))) ∧
    (next_token (Decoder.new (strBytes "i01e"))).1 =
      .error (.SyntaxError "Expected \x27e\x27, got \x271\x27 at offset 2") := by
  exact ⟨rfl, rfl, rfl⟩

/-- C3 (claim fails on the code): `"3:abc"` does not yield `String "abc"` and
`"3:ab"` does not fail with `UnexpectedEof`: both fail with
`SyntaxError "Invalid integer at offset 0"` because the length text includes
the `':'` terminator.  Moreover, even given length 3 at offset 2 of
`"3:abc"`, `take_chunk` rejects the payload that ends exactly at the end of
the buffer. -/
theorem string_token_length_parse_fails :
    (next_token (Decoder.new (strBytes "3:abc"))).1 =
      .error (.SyntaxError "Invalid integer at offset 0") ∧
    (next_token (Decoder.new (strBytes "3:ab"))).1 =
      .error (.SyntaxError "Invalid integer at offset 0") ∧
    take_chunk { source := strBytes "3:abc", offset := 2, state := [] } 3 =
      (none, { source := strBytes "3:abc", offset := 2, state := [] }) := by
  exact ⟨rfl, rfl, rfl⟩

/-- C4 (claim fails on the code): with top frame `MapValue(k)` and a `List`
(resp. `Dict`) open as the next token, `next_token` only replaces the top
frame with `MapKey(Some k)` and does NOT push a `Seq` (resp. `MapKey(None)`)
frame: the `(Some(&MapValue(label)), _)` match arm shadows the `(_, List)`
and `(_, Dict)` arms (Rust `match` takes the first matching arm only). -/
theorem map_value_container_pushes_no_frame :
    next_token { source := strBytes "li1ee", offset := 0,
                 state := [DecodeState.MapValue (strBytes "k")] } =
      (.ok (some .list),
       { source := strBytes "li1ee", offset := 1,
         state := [DecodeState.MapKey (some (strBytes "k"))] }) ∧
    next_token { source := strBytes "de", offset := 0,
                 state := [DecodeState.MapValue (strBytes "k")] } =
      (.ok (some .dict),
       { source := strBytes "de", offset := 1,
         state := [DecodeState.MapKey (some (strBytes "k"))] }) := by
  exact ⟨rfl, rfl⟩

/-- C5: the `unwrap` in `DictDecoder::next` can never fire, for any decoder
state and `finished` flag: the `panicked` outcome is unreachable.  (It holds
vacuously: the candidate key can never be a `String` token, because the
tokenizer's length parse always fails — see `raw_next_token_no_string`.) -/
theorem dict_decoder_next_never_panics (d : Decoder) (finished : Bool) :
    (dict_next d finished).1 ≠ DictNextOutcome.panicked := by
  rcases hdn : dict_next d finished with ⟨o, d2, f2⟩
  exact dict_next_eq_no_panic _ _ _ _ _ hdn

/-- C6: `take_chunk(count)` returns `None` (and leaves the decoder untouched)
whenever `offset + count` equals the source length: the strict bound check
`end_pos < self.source.len()` rejects a byte span reaching exactly the end of
the buffer. -/
theorem take_chunk_rejects_exact_end (d : Decoder) (count : Nat)
    (h : d.offset + count = d.source.length) :
    take_chunk d count = (none, d) := by
  unfold take_chunk
  simp only []
  rw [if_neg (by omega)]

/-- Witness for `take_chunk_rejects_exact_end` at a concrete input. -/
theorem take_chunk_rejects_exact_end_witness :
    (Decoder.new (strBytes "abc")).offset + 3 = (Decoder.new (strBytes "abc")).source.length ∧
    take_chunk (Decoder.new (strBytes "abc")) 3 = (none, Decoder.new (strBytes "abc")) :=
  ⟨by decide, take_chunk_rejects_exact_end (Decoder.new (strBytes "abc")) 3 (by decide)⟩

/-- C7 (claim fails on the code): `"d3:foo3:xx3:bar3:yye"` does not fail with
`UnsortedKeys` at the offset of `"bar"`: it already fails at the first key
with `SyntaxError "Invalid integer at offset 1"`, because the length text
`take_int` returns includes the `':'` terminator. -/
theorem unsorted_keys_input_fails_with_syntax_error :
    (next_tokens 2 (Decoder.new (strBytes "d3:foo3:xx3:bar3:yye"))).1 =
      [.ok (some .dict), .error (.SyntaxError "Invalid integer at offset 1")] := by
  exact rfl

/-- C8: after `next_token` returns an error, every subsequent call on the
same decoder returns that identical error and the identical decoder (offset
included): the error was latched as a `Failed` top frame and `check_error`
short-circuits every later call.  Holds for every error value. -/
theorem next_token_sticky_error (d : Decoder) (e : Error) (d' : Decoder)
    (h : next_token d = (.error e, d')) :
    ∀ n, next_tokens n d' = (List.replicate n (Except.error e), d') := by
  have hh := (next_token_error_spec _ _ _ h).1
  have hstep : next_token d' = (.error e, d') := by
    unfold next_token check_error
    rw [hh]
  intro n
  induction n with
  | zero => rfl
  | succ k ih => simp [next_tokens, hstep, ih, List.replicate_succ]

/-- Witness for `next_token_sticky_error`: the invalid leading byte `'x'`
latches a `SyntaxError`; two further calls repeat it verbatim with the
decoder unchanged. -/
theorem next_token_sticky_error_witness :
    next_tokens 2 (next_token (Decoder.new (strBytes "x"))).2 =
      (List.replicate 2 (Except.error
         (Error.SyntaxError "Invalid token starting with \x27x\x27 at offset 0")),
       (next_token (Decoder.new (strBytes "x"))).2) :=
  next_token_sticky_error (Decoder.new (strBytes "x"))
    (Error.SyntaxError "Invalid token starting with \x27x\x27 at offset 0")
    (next_token (Decoder.new (strBytes "x"))).2 (by rfl) 2

/-- C9: across `next_token` calls the cursor is monotonic non-decreasing;
a call failing grammar validation (`UnsortedKeys` or `InvalidState`) leaves
the cursor exactly at the start of the offending token (= where the call
began); and a bare `"e"` at top level fails with
`InvalidState "End not allowed at top level"` leaving the cursor at 0. -/
theorem next_token_cursor_monotonic_rollback :
    (∀ (d : Decoder) (r : Except Error (Option Token)) (d' : Decoder),
        next_token d = (r, d') → d.offset ≤ d'.offset) ∧
    (∀ (d : Decoder) (e : Error) (d' : Decoder),
        next_token d = (.error e, d') →
        (e = Error.UnsortedKeys ∨ ∃ s, e = Error.InvalidState s) →
        d'.offset = d.offset) ∧
    next_token (Decoder.new (strBytes "e")) =
      (.error (.InvalidState "End not allowed at top level"),
       { source := strBytes "e", offset := 0,
         state := [.Failed (.InvalidState "End not allowed at top level")] }) := by
  refine ⟨?_, ?_, rfl⟩
  · intro d r d' h
    exact (next_token_offset_spec _ _ _ h).1
  · intro d e d' h hk
    exact next_token_validation_error_offset _ _ _ h hk

/-- Witness for `next_token_cursor_monotonic_rollback` at the concrete
input `"e"`. -/
theorem next_token_cursor_monotonic_rollback_witness :
    (Decoder.new (strBytes "e")).offset ≤ (next_token (Decoder.new (strBytes "e"))).2.offset ∧
    (next_token (Decoder.new (strBytes "e"))).2.offset = (Decoder.new (strBytes "e")).offset :=
  ⟨next_token_cursor_monotonic_rollback.1 _ _ _ rfl,
   next_token_cursor_monotonic_rollback.2.1 _ _ _ rfl (Or.inr ⟨_, rfl⟩)⟩

/-- C10: `next_token` preserves the cursor invariant `offset ≤ source
length` (the lower bound `0 ≤ offset` is the type `Nat`): every byte access
in `take_byte`, the `take_int` loop and `take_chunk` is guarded by exactly
this bound, and the digit-branch decrement happens right after a successful
`take_byte`, at `offset ≥ 1`. -/
theorem next_token_offset_in_bounds (d : Decoder) (h : d.offset ≤ d.source.length) :
    (next_token d).2.offset ≤ d.source.length := by
  rcases hnt : next_token d with ⟨r, d'⟩
  exact (next_token_offset_spec _ _ _ hnt).2.trans (max_le h (le_refl _))

/-- Witness for `next_token_offset_in_bounds` at a concrete input. -/
theorem next_token_offset_in_bounds_witness :
    (Decoder.new (strBytes "i42e")).offset ≤ (Decoder.new (strBytes "i42e")).source.length ∧
    (next_token (Decoder.new (strBytes "i42e"))).2.offset ≤
      (Decoder.new (strBytes "i42e")).source.length :=
  ⟨by decide, next_token_offset_in_bounds (Decoder.new (strBytes "i42e")) (by decide)⟩

end Bendy
